import Mathlib

/-!
Verification of `cloudposse/github-action-releaser` (`src/app.js`).

The file shallowly embeds the JavaScript source: the regular expressions
`SEMVER_PATTERN` and `RELEASE_BRANCH_PATTERN` become executable character-list
checkers recognising exactly the same languages, JavaScript objects keyed by
strings become association lists, the git capability surface (`git tag -l`,
`git rev-parse`, branch creation) becomes an explicit `GitRepo` record, and the
`main` entry point becomes a pure function returning the branches it creates
together with an optional error (a thrown `ReleaseManagerError`).
-/

namespace Releaser

/-- Character class `[0-9a-zA-Z-]` used by `SEMVER_PATTERN`. -/
def isAlnumHyphen (c : Char) : Bool :=
  c.isDigit || c.isAlpha || c == '-'

/-- The numeric-part alternative `0|[1-9]\d*` of `SEMVER_PATTERN`
(used for major, minor, patch and numeric pre-release identifiers). -/
def isNumPart : List Char → Bool
  | [] => false
  | c :: cs =>
    if c == '0' then cs.isEmpty
    else (decide ('1' ≤ c) && decide (c ≤ '9')) && cs.all Char.isDigit

/-- The alternative `\d*[a-zA-Z-][0-9a-zA-Z-]*` for pre-release identifiers:
a (maximal) digit run, then a letter or hyphen, then alphanumerics/hyphens.
Taking the digit run maximal is exact because the regex position after `\d*`
must hold a non-digit. -/
def isNonNumId (l : List Char) : Bool :=
  match l.dropWhile Char.isDigit with
  | [] => false
  | c :: rest => (c.isAlpha || c == '-') && rest.all isAlnumHyphen

/-- One pre-release identifier: `0|[1-9]\d*|\d*[a-zA-Z-][0-9a-zA-Z-]*`. -/
def isPreId (l : List Char) : Bool :=
  isNumPart l || isNonNumId l

/-- One build-metadata identifier: `[0-9a-zA-Z-]+`. -/
def isBuildId (l : List Char) : Bool :=
  !l.isEmpty && l.all isAlnumHyphen

/-- The part of `SEMVER_PATTERN` before the optional `+<buildmetadata>`:
`(0|[1-9]\d*)\.(0|[1-9]\d*)\.(0|[1-9]\d*)(?:-<prerelease>)?`.
Major, minor and patch hold no `-`, so the first `-` (if any) starts the
pre-release part. -/
def coreOk (core : List Char) : Bool :=
  (match (core.takeWhile (fun c => c != '-')).splitOn '.' with
   | [maj, mino, pat] => isNumPart maj && isNumPart mino && isNumPart pat
   | _ => false) &&
  (match core.dropWhile (fun c => c != '-') with
   | [] => true
   | _ :: pre => (pre.splitOn '.').all isPreId)

/-- `isSemver(version)`: `SEMVER_PATTERN.test(version)` from `app.js`.
No part before `+` may contain `+`, so the first `+` (if any) starts the
build metadata; more than one `+` can never match. -/
def isSemver (version : String) : Bool :=
  match version.data.splitOn '+' with
  | [core] => coreOk core
  | [core, build] => coreOk core && (build.splitOn '.').all isBuildId
  | _ => false

/-- `getMajor(version)`: `version.match(SEMVER_PATTERN)?.groups?.major || ''`.
On a full match the `major` group is exactly the prefix before the first dot;
on no match the result is the empty string. -/
def getMajor (version : String) : String :=
  if isSemver version then String.mk (version.data.takeWhile (fun c => c != '.')) else ""

/-- Recognise the literal `release/v` head of `RELEASE_BRANCH_PATTERN` and
return what follows it. -/
def releaseBranchRest? : List Char → Option (List Char)
  | 'r' :: 'e' :: 'l' :: 'e' :: 'a' :: 's' :: 'e' :: '/' :: 'v' :: rest => some rest
  | _ => none

/-- `isBranchAReleaseBranch(branchName)`:
`RELEASE_BRANCH_PATTERN.test(branchName)` with pattern `^release\/v(?<major>[0-9]+)$`. -/
def isBranchAReleaseBranch (branchName : String) : Bool :=
  match releaseBranchRest? branchName.data with
  | some rest => !rest.isEmpty && rest.all Char.isDigit
  | none => false

/-- `getMajorFromReleaseBranch(releaseBranch)`:
`releaseBranch.match(RELEASE_BRANCH_PATTERN)?.groups?.major || ''`. -/
def getMajorFromReleaseBranch (releaseBranch : String) : String :=
  match releaseBranchRest? releaseBranch.data with
  | some rest => if !rest.isEmpty && rest.all Char.isDigit then String.mk rest else ""
  | none => ""

/-- One update step of the object literal in `buildTagMap`:
`if (!(major in tagMap)) tagMap[major] = []; tagMap[major].push(tag)`.
The `in` here is modelled as own-key membership: `major` is always
`getMajor` of a valid semver tag, a digit string, which is never a property
name inherited from `Object.prototype`, so the prototype chain cannot fire
on this path. -/
def tagMapInsert (m : List (String × List String)) (major tag : String) :
    List (String × List String) :=
  if m.any (fun p => p.1 == major) then
    m.map (fun p => if p.1 == major then (p.1, p.2 ++ [tag]) else p)
  else m ++ [(major, [tag])]

/-- The body of the `for (const tag of tags)` loop in `buildTagMap`.
`tagToExclude` is an `Option` because the JavaScript parameter may be left
`undefined` by a caller; `tag === tagToExclude` is strict string equality. -/
def tagMapStep (tagToExclude : Option String) (m : List (String × List String))
    (tag : String) : List (String × List String) :=
  if !isSemver tag then m
  else if some tag == tagToExclude then m
  else tagMapInsert m (getMajor tag) tag

/-- `buildTagMap(tags, tagToExclude)` from `app.js`, the JS object modelled as
an association list from major strings to the pushed tag arrays. -/
def buildTagMap (tags : List String) (tagToExclude : Option String) :
    List (String × List String) :=
  tags.foldl (tagMapStep tagToExclude) []

/-- The fields of the GitHub event context that `app.js` reads
(`context.eventName`, `context.payload.release.tag_name`,
`context.payload.release.target_commitish`,
`context.payload.repository.default_branch`, `context.sha`). -/
structure GithubContext where
  eventName : String
  releaseTagName : String
  targetCommitish : String
  defaultBranch : String
  sha : String

/-- `getReleaseTag(context)`. -/
def getReleaseTag (context : GithubContext) : String := context.releaseTagName

/-- `getTargetBranch(context)`. -/
def getTargetBranch (context : GithubContext) : String := context.targetCommitish

/-- `getDefaultBranch(context)`. -/
def getDefaultBranch (context : GithubContext) : String := context.defaultBranch

/-- `getTagCommit(context)`. -/
def getTagCommit (context : GithubContext) : String := context.sha

/-- `validateGithubContext(context)`: throws `ReleaseManagerError` on an
unsupported event or a non-SemVer release tag; modelled as `Except`. -/
def validateGithubContext (context : GithubContext) : Except String Unit :=
  if context.eventName ≠ "release" then
    Except.error ("Unsupported event '" ++ context.eventName ++ "'. Only supported event is 'release'")
  else if !isSemver (getReleaseTag context) then
    Except.error ("Release tag '" ++ getReleaseTag context ++ "' is not in SemVer format")
  else Except.ok ()

/-- The git capability surface `app.js` shells out to: `git tag -l`,
`git rev-parse <sha>^`, `git rev-parse --verify <branch>`. -/
structure GitRepo where
  tags : List String
  branches : List String
  parentOf : String → String

/-- `getAllTags()`. -/
def getAllTags (repo : GitRepo) : List String := repo.tags

/-- `getPreviousCommit(sha)`. -/
def getPreviousCommit (repo : GitRepo) (sha : String) : String := repo.parentOf sha

/-- `doesBranchExist(branchName)`. -/
def doesBranchExist (repo : GitRepo) (branchName : String) : Bool :=
  repo.branches.contains branchName

/-- The property names a plain object literal inherits from
`Object.prototype` (ECMA-262, including the Annex B accessors), which the
JavaScript `in` operator finds on any `{}` even with no own keys. -/
def objectProtoKeys : List String :=
  ["constructor", "hasOwnProperty", "isPrototypeOf", "propertyIsEnumerable",
   "toLocaleString", "toString", "valueOf",
   "__defineGetter__", "__defineSetter__", "__lookupGetter__", "__lookupSetter__",
   "__proto__"]

/-- The JavaScript `in` operator on a plain object literal: an own key, or a
property inherited from `Object.prototype`. -/
def jsIn (key : String) (m : List (String × List String)) : Bool :=
  m.any (fun p => p.1 == key) || objectProtoKeys.contains key

/-- `doesMajorTagAlreadyExist(major, tagToExclude)`:
`major in buildTagMap(getAllTags(), tagToExclude)`, with `in` searching own
keys and the prototype chain. -/
def doesMajorTagAlreadyExist (repo : GitRepo) (major tagToExclude : String) : Bool :=
  jsIn major (buildTagMap (getAllTags repo) (some tagToExclude))

/-- `parseInt(s, 10)` on the digit-only strings `getMajor` produces. -/
def parseIntDigits (s : String) : Int :=
  s.data.foldl (fun n c => 10 * n + ((c.toNat : Int) - 48)) 0

/-- The observable result of one `main` run: the branches it created (branch
name with its source commit, via `createBranchFromCommitAndPush`) and the
`ReleaseManagerError` it threw, if any. -/
structure RunResult where
  created : List (String × String)
  error : Option String
deriving DecidableEq, Repr

/-- `main(workingDirectory, contextFile)` from `app.js` (lines 139-195),
with the git side effects read from / recorded against `repo`. -/
def mainRun (repo : GitRepo) (context : GithubContext) : RunResult :=
  match validateGithubContext context with
  | Except.error e => ⟨[], some e⟩
  | Except.ok _ =>
    let releaseTag := getReleaseTag context
    let targetBranch := getTargetBranch context
    let majorForReleaseTag := getMajor releaseTag
    let defaultBranch := getDefaultBranch context
    if targetBranch == defaultBranch then
      if doesMajorTagAlreadyExist repo majorForReleaseTag releaseTag then ⟨[], none⟩
      else
        let previousCommit := getPreviousCommit repo (getTagCommit context)
        let previousTag := parseIntDigits majorForReleaseTag - 1
        let releaseBranchName :=
          if majorForReleaseTag == "" then "release/v0"
          else "release/v" ++ toString previousTag
        if doesBranchExist repo releaseBranchName then
          ⟨[], some ("Branch '" ++ releaseBranchName ++ "' already exists")⟩
        else ⟨[(releaseBranchName, previousCommit)], none⟩
    else if isBranchAReleaseBranch targetBranch then
      let majorForReleaseBranch := getMajorFromReleaseBranch targetBranch
      if majorForReleaseTag == majorForReleaseBranch then ⟨[], none⟩
      else ⟨[], some ("Major version in release tag '" ++ releaseTag ++
        "' does not match release branch version '" ++ targetBranch ++ "'")⟩
    else ⟨[], some ("Target branch '" ++ targetBranch ++ "' is not a default or release branch")⟩

/-- The `reason` values of the Outcome structure described by the spec. -/
inductive OutcomeReason
  | NO_CHANGES
  | CREATED_BRANCHES
deriving DecidableEq, Repr

/-- The uniform Outcome structure the spec describes (§3). -/
structure Outcome where
  succeeded : Bool
  reason : Option OutcomeReason
  message : String
  data : List (String × String)
deriving DecidableEq, Repr

/-- Modelled from the spec: the top-level boundary around `main` (the caller
of the exported `main`, not under `src/`) that catches every exception and
converts it to `Outcome{succeeded=false, reason=none, message=<error text>,
data={}}`, and reports success uniformly otherwise. -/
def runMain (repo : GitRepo) (context : GithubContext) : Outcome :=
  let r := mainRun repo context
  match r.error with
  | some e => ⟨false, none, e, []⟩
  | none =>
    if r.created.isEmpty then ⟨true, some OutcomeReason.NO_CHANGES, "No changes were made", []⟩
    else ⟨true, some OutcomeReason.CREATED_BRANCHES, "Successfully created release branches", r.created⟩

/-- A numeric version component as the spec words it: nonempty, decimal
digits only, and no leading zero except for the single digit `0`. -/
def NumNoLeadZero (l : List Char) : Prop :=
  l ≠ [] ∧ (∀ c ∈ l, c.isDigit = true) ∧ ∀ cs, l = '0' :: cs → cs = []

/-- A pre-release identifier per the standard semantic-version grammar:
nonempty, over `[0-9a-zA-Z-]`, and a purely numeric identifier has no
leading zeros. -/
def PreIdGood (l : List Char) : Prop :=
  l ≠ [] ∧ (∀ c ∈ l, isAlnumHyphen c = true) ∧
    ((∀ c ∈ l, c.isDigit = true) → ∀ cs, l = '0' :: cs → cs = [])

/-- A build-metadata identifier per the standard semantic-version grammar:
nonempty and over `[0-9a-zA-Z-]`. -/
def BuildIdGood (l : List Char) : Prop :=
  l ≠ [] ∧ ∀ c ∈ l, isAlnumHyphen c = true

/-- Identifiers joined by dots. -/
def dotJoined (ids : List (List Char)) : List Char :=
  List.intercalate ['.'] ids

/-- An optional suffix (the `-<prerelease>` or `+<buildmetadata>` part). -/
def optSuffix (sep : Char) : Option (List (List Char)) → List Char
  | none => []
  | some ids => sep :: dotJoined ids

/-- The semantic-version grammar, stated declaratively: the string decomposes
into `major.minor.patch`, optionally `-` and dot-separated pre-release
identifiers, optionally `+` and dot-separated build-metadata identifiers. -/
def SemverGrammar (s : String) : Prop :=
  ∃ (maj mino pat : List Char) (pre build : Option (List (List Char))),
    s.data = maj ++ '.' :: mino ++ '.' :: pat ++ optSuffix '-' pre ++ optSuffix '+' build ∧
    NumNoLeadZero maj ∧ NumNoLeadZero mino ∧ NumNoLeadZero pat ∧
    (∀ ids, pre = some ids → ids ≠ [] ∧ ∀ i ∈ ids, PreIdGood i) ∧
    (∀ ids, build = some ids → ids ≠ [] ∧ ∀ i ∈ ids, BuildIdGood i)

/-- The keys of an association list. -/
def Keys (m : List (String × List String)) : List String := m.map Prod.fst

/-- The tags of the input list that `buildTagMap` files under key `k`. -/
def tagFilterPred (excl : Option String) (k : String) (t : String) : Bool :=
  isSemver t && !(some t == excl) && (getMajor t == k)

/-- A repository with no tags and no branches, for concrete runs. -/
def emptyRepo : GitRepo := ⟨[], [], fun _ => "c0"⟩

/-- A context whose event is not `release`. -/
def ctxBadEvent : GithubContext := ⟨"push", "1.0.0", "main", "main", "s"⟩

/-- A valid release context targeting the default branch. -/
def ctxDefaultBranch : GithubContext := ⟨"release", "0.1.2", "main", "main", "s"⟩

/-- A release context whose default branch is itself named like a release
branch and is also the target branch. -/
def ctxReleaseIsDefault : GithubContext := ⟨"release", "2.0.0", "release/v1", "release/v1", "s"⟩

/-- A repository holding a tag of major 2 other than the one being released. -/
def repoMajor2 : GitRepo := ⟨["2.5.0"], [], fun _ => "c0"⟩

/-- A release context targeting the release branch matching the tag's major. -/
def ctxMatchingReleaseBranch : GithubContext := ⟨"release", "1.2.3", "release/v1", "main", "s"⟩

/-- A release context targeting a branch that is neither default nor release. -/
def ctxFeatureBranch : GithubContext := ⟨"release", "1.0.0", "feature", "main", "s"⟩

/-- A repository with two tags of major 1. -/
def repoTwoMajor1 : GitRepo := ⟨["1.0.0", "1.5.0"], [], fun _ => "c0"⟩

/-- `[1-9]` is exactly a digit other than `'0'`. -/
theorem digit_range (c : Char) :
    ((decide ('1' ≤ c) && decide (c ≤ '9')) = true) ↔ (c.isDigit = true ∧ c ≠ '0') := by
  have e1 : ('1' : Char).val.toBitVec.toNat = 49 := rfl
  have e9 : ('9' : Char).val.toBitVec.toNat = 57 := rfl
  have g0 : ('0' : Char).val.toNat = 48 := rfl
  have f0 : (UInt32.toBitVec 48).toNat = 48 := rfl
  have f9 : (UInt32.toBitVec 57).toNat = 57 := rfl
  have hv : c.val.toNat = c.val.toBitVec.toNat := rfl
  simp only [Bool.and_eq_true, decide_eq_true_eq, Char.isDigit, Char.le_def, Char.ext_iff,
    UInt32.le_def, UInt32.ext_iff, ge_iff_le, BitVec.le_def, ne_eq, e1, e9, g0, f0, f9, hv]
  omega

/-- A character in one boolean class differs from one outside it. -/
theorem ne_of_class {p : Char → Bool} {c d : Char} (h : p c = true) (hd : p d = false) :
    c ≠ d := by
  intro hcd
  rw [hcd, hd] at h
  exact Bool.false_ne_true h

theorem isNumPart_iff (l : List Char) : isNumPart l = true ↔ NumNoLeadZero l := by
  cases l with
  | nil =>
    simp [isNumPart, NumNoLeadZero]
  | cons c cs =>
    by_cases hc : c = '0'
    · subst hc
      rw [isNumPart, if_pos (by simp)]
      rw [List.isEmpty_iff]
      constructor
      · rintro rfl
        refine ⟨by simp, ?_, ?_⟩
        · intro x hx
          rcases List.mem_cons.mp hx with rfl | hx
          · decide
          · simp at hx
        · intro cs' h'
          exact (List.cons.inj h').2.symm
      · rintro ⟨-, -, h3⟩
        exact h3 cs rfl
    · rw [isNumPart, if_neg (by simp [hc])]
      simp only [Bool.and_eq_true, List.all_eq_true]
      constructor
      · rintro ⟨h19, hall⟩
        obtain ⟨hdig, -⟩ := (digit_range c).mp (by simp [h19.1, h19.2])
        refine ⟨by simp, ?_, ?_⟩
        · intro x hx
          rcases List.mem_cons.mp hx with rfl | hx
          · exact hdig
          · exact hall x hx
        · intro cs' h'
          exact absurd (List.cons.inj h').1 hc
      · rintro ⟨-, hall, -⟩
        refine ⟨by simpa using (digit_range c).mpr ⟨hall c (by simp), hc⟩, ?_⟩
        intro x hx
        exact hall x (List.mem_cons_of_mem _ hx)

theorem isNonNumId_iff_of_not_all_digits {l : List Char} (c0 : Char) (hc0mem : c0 ∈ l)
    (hc0 : c0.isDigit = false) :
    (isNonNumId l = true ↔ ∀ x ∈ l, isAlnumHyphen x = true) := by
  cases hdw : l.dropWhile Char.isDigit with
  | nil =>
    have := List.dropWhile_eq_nil_iff.mp hdw c0 hc0mem
    rw [hc0] at this
    exact absurd this (by simp)
  | cons c rest =>
    have hc : c.isDigit = false := by
      have h := List.head?_dropWhile_not Char.isDigit l
      rw [hdw] at h
      simpa using h
    have hl : l.takeWhile Char.isDigit ++ c :: rest = l := by
      rw [← hdw]
      exact List.takeWhile_append_dropWhile _ _
    rw [isNonNumId, hdw]
    simp only [Bool.and_eq_true, Bool.or_eq_true, List.all_eq_true]
    constructor
    · rintro ⟨hcc, hrest⟩
      intro x hx
      rw [← hl] at hx
      rcases List.mem_append.mp hx with hx | hx
      · have hxd : x.isDigit = true := List.mem_takeWhile_imp hx
        simp [isAlnumHyphen, hxd]
      · rcases List.mem_cons.mp hx with rfl | hx
        · rcases hcc with h | h
          · simp [isAlnumHyphen, h]
          · simp [isAlnumHyphen, h]
        · exact hrest x hx
    · intro hall
      refine ⟨?_, fun x hx => hall x ?_⟩
      · have h := hall c (by rw [← hl]; simp)
        rw [isAlnumHyphen, hc, Bool.false_or] at h
        simpa using h
      · rw [← hl]
        simp [hx]

theorem isPreId_iff (l : List Char) : isPreId l = true ↔ PreIdGood l := by
  by_cases hd : ∀ c ∈ l, c.isDigit = true
  · have hdrop : l.dropWhile Char.isDigit = [] := List.dropWhile_eq_nil_iff.mpr hd
    have hnn : isNonNumId l = false := by simp [isNonNumId, hdrop]
    rw [isPreId, hnn, Bool.or_false, isNumPart_iff]
    constructor
    · rintro ⟨h1, h2, h3⟩
      exact ⟨h1, fun c hc => by simp [isAlnumHyphen, hd c hc], fun _ => h3⟩
    · rintro ⟨h1, h2, h3⟩
      exact ⟨h1, hd, h3 hd⟩
  · push_neg at hd
    obtain ⟨c0, hc0mem, hc0⟩ := hd
    have hc0' : c0.isDigit = false := by
      cases h : c0.isDigit
      · rfl
      · exact absurd h hc0
    have hnp : isNumPart l = false := by
      cases hb : isNumPart l
      · rfl
      · exact absurd (((isNumPart_iff l).mp hb).2.1 c0 hc0mem) (by simp [hc0'])
    rw [isPreId, hnp, Bool.false_or,
      isNonNumId_iff_of_not_all_digits c0 hc0mem hc0']
    constructor
    · intro hall
      refine ⟨?_, hall, ?_⟩
      · rintro rfl
        simp at hc0mem
      · intro hdig
        exact absurd (hdig c0 hc0mem) (by simp [hc0'])
    · rintro ⟨-, h2, -⟩
      exact h2

theorem isBuildId_iff (l : List Char) : isBuildId l = true ↔ BuildIdGood l := by
  rw [isBuildId, BuildIdGood]
  simp [List.isEmpty_iff, List.all_eq_true]

theorem takeWhile_eq_self_of {α : Type} (p : α → Bool) (l : List α)
    (h : ∀ x ∈ l, p x = true) : l.takeWhile p = l := by
  induction l with
  | nil => rfl
  | cons a t ih =>
    rw [List.takeWhile_cons, h a (by simp)]
    simp [ih (fun x hx => h x (List.mem_cons_of_mem _ hx))]

theorem takeWhile_append_cons {α : Type} (p : α → Bool) (a : List α) (c : α) (b : List α)
    (ha : ∀ x ∈ a, p x = true) (hc : p c = false) :
    (a ++ c :: b).takeWhile p = a := by
  induction a with
  | nil => simp [List.takeWhile_cons, hc]
  | cons x xs ih =>
    rw [List.cons_append, List.takeWhile_cons, ha x (by simp)]
    simp [ih (fun y hy => ha y (List.mem_cons_of_mem _ hy))]

theorem dropWhile_append_cons {α : Type} (p : α → Bool) (a : List α) (c : α) (b : List α)
    (ha : ∀ x ∈ a, p x = true) (hc : p c = false) :
    (a ++ c :: b).dropWhile p = c :: b := by
  induction a with
  | nil => simp [List.dropWhile_cons, hc]
  | cons x xs ih =>
    rw [List.cons_append, List.dropWhile_cons, ha x (by simp)]
    simp [ih (fun y hy => ha y (List.mem_cons_of_mem _ hy))]

theorem splitOn_eq_single {α : Type} [DecidableEq α] (sep : α) (l : List α)
    (h : ∀ x ∈ l, x ≠ sep) : l.splitOn sep = [l] := by
  rw [List.splitOn]
  exact List.splitOnP_eq_single _ _ (fun x hx => by simp [h x hx])

theorem splitOn_append_cons {α : Type} [DecidableEq α] (sep : α) (a b : List α)
    (h : ∀ x ∈ a, x ≠ sep) : (a ++ sep :: b).splitOn sep = a :: b.splitOn sep := by
  rw [List.splitOn, List.splitOn]
  exact List.splitOnP_first _ _ (fun x hx => by simp [h x hx]) sep (by simp) b

theorem splitOn_ne_nil {α : Type} [DecidableEq α] (sep : α) (l : List α) :
    l.splitOn sep ≠ [] := by
  rw [List.splitOn]
  exact List.splitOnP_ne_nil _ _

theorem intercalate_single {α : Type} (s : α) (a : List α) :
    List.intercalate [s] [a] = a := by
  simp [List.intercalate]

theorem intercalate_pair {α : Type} (s : α) (a b : List α) :
    List.intercalate [s] [a, b] = a ++ s :: b := by
  simp [List.intercalate, List.intersperse]

theorem intercalate_cons_cons {α : Type} (s : α) (a b : List α) (t : List (List α)) :
    List.intercalate [s] (a :: b :: t) = a ++ s :: List.intercalate [s] (b :: t) := by
  simp [List.intercalate, List.intersperse_cons_cons]

theorem mem_intercalate {α : Type} (s : α) :
    ∀ (ids : List (List α)) (x : α), x ∈ List.intercalate [s] ids →
      x = s ∨ ∃ w ∈ ids, x ∈ w := by
  intro ids
  induction ids with
  | nil =>
    intro x hx
    simp [List.intercalate] at hx
  | cons a t ih =>
    cases t with
    | nil =>
      intro x hx
      rw [intercalate_single] at hx
      exact Or.inr ⟨a, by simp, hx⟩
    | cons b t2 =>
      intro x hx
      rw [intercalate_cons_cons] at hx
      rcases List.mem_append.mp hx with h | h
      · exact Or.inr ⟨a, by simp, h⟩
      · rcases List.mem_cons.mp h with rfl | h2
        · exact Or.inl rfl
        · rcases ih x h2 with h3 | ⟨w, hw, hxw⟩
          · exact Or.inl h3
          · exact Or.inr ⟨w, List.mem_cons_of_mem _ hw, hxw⟩

theorem coreOk_iff (core : List Char) :
    coreOk core = true ↔
      ∃ (maj mino pat : List Char) (pre : Option (List (List Char))),
        core = maj ++ '.' :: mino ++ '.' :: pat ++ optSuffix '-' pre ∧
        NumNoLeadZero maj ∧ NumNoLeadZero mino ∧ NumNoLeadZero pat ∧
        (∀ ids, pre = some ids → ids ≠ [] ∧ ∀ i ∈ ids, PreIdGood i) := by
  constructor
  · intro h
    rw [coreOk, Bool.and_eq_true] at h
    obtain ⟨h1, h2⟩ := h
    split at h1
    · rename_i maj mino pat heq
      rw [Bool.and_eq_true, Bool.and_eq_true] at h1
      obtain ⟨⟨hmaj, hmino⟩, hpat⟩ := h1
      have hverEq : core.takeWhile (fun c => c != '-') = maj ++ '.' :: (mino ++ '.' :: pat) := by
        have h0 := List.intercalate_splitOn (core.takeWhile (fun c => c != '-')) '.'
        rw [heq, intercalate_cons_cons, intercalate_pair] at h0
        exact h0.symm
      have hcore := List.takeWhile_append_dropWhile (fun c => c != '-') core
      split at h2
      · rename_i hrest
        refine ⟨maj, mino, pat, none, ?_, (isNumPart_iff maj).mp hmaj,
          (isNumPart_iff mino).mp hmino, (isNumPart_iff pat).mp hpat, by simp⟩
        rw [hverEq, hrest] at hcore
        simp only [optSuffix]
        simpa using hcore.symm
      · rename_i c pre' hrest
        have hcdash : c = '-' := by
          have hh := List.head?_dropWhile_not (fun c => c != '-') core
          rw [hrest] at hh
          simpa using hh
        subst hcdash
        rw [List.all_eq_true] at h2
        refine ⟨maj, mino, pat, some (pre'.splitOn '.'), ?_, (isNumPart_iff maj).mp hmaj,
          (isNumPart_iff mino).mp hmino, (isNumPart_iff pat).mp hpat, ?_⟩
        · rw [hverEq, hrest] at hcore
          have hpre' : List.intercalate ['.'] (pre'.splitOn '.') = pre' :=
            List.intercalate_splitOn pre' '.'
          simp only [optSuffix, dotJoined, hpre']
          simpa using hcore.symm
        · rintro ids hids
          injection hids with hids
          subst hids
          exact ⟨splitOn_ne_nil _ _, fun i hi => (isPreId_iff i).mp (h2 i hi)⟩
    · simp at h1
  · rintro ⟨maj, mino, pat, pre, hceq, hmaj, hmino, hpat, hpre⟩
    have hverm : ∀ x ∈ maj ++ '.' :: (mino ++ '.' :: pat), (x != '-') = true := by
      intro x hx
      have hcls : x.isDigit = true ∨ x = '.' := by
        rcases List.mem_append.mp hx with h | h
        · exact Or.inl (hmaj.2.1 x h)
        · rcases List.mem_cons.mp h with rfl | h
          · exact Or.inr rfl
          · rcases List.mem_append.mp h with h | h
            · exact Or.inl (hmino.2.1 x h)
            · rcases List.mem_cons.mp h with rfl | h
              · exact Or.inr rfl
              · exact Or.inl (hpat.2.1 x h)
      rcases hcls with h | rfl
      · simpa using ne_of_class h (by decide : ('-' : Char).isDigit = false)
      · decide
    have hsplit3 : (maj ++ '.' :: (mino ++ '.' :: pat)).splitOn '.' = [maj, mino, pat] := by
      rw [splitOn_append_cons '.' maj (mino ++ '.' :: pat) (fun x hx =>
          ne_of_class (hmaj.2.1 x hx) (by decide : ('.' : Char).isDigit = false)),
        splitOn_append_cons '.' mino pat (fun x hx =>
          ne_of_class (hmino.2.1 x hx) (by decide : ('.' : Char).isDigit = false)),
        splitOn_eq_single '.' pat (fun x hx =>
          ne_of_class (hpat.2.1 x hx) (by decide : ('.' : Char).isDigit = false))]
    cases pre with
    | none =>
      have hcv : core = maj ++ '.' :: (mino ++ '.' :: pat) := by
        rw [hceq]
        simp [optSuffix]
      rw [coreOk, hcv]
      have hdw : (maj ++ '.' :: (mino ++ '.' :: pat)).dropWhile (fun c => c != '-') = [] :=
        List.dropWhile_eq_nil_iff.mpr hverm
      rw [takeWhile_eq_self_of _ _ hverm, hdw, hsplit3]
      simp [(isNumPart_iff maj).mpr hmaj, (isNumPart_iff mino).mpr hmino,
        (isNumPart_iff pat).mpr hpat]
    | some ids =>
      obtain ⟨hne, hgood⟩ := hpre ids rfl
      have hdot : ∀ w ∈ ids, '.' ∉ w := by
        intro w hw hcmem
        exact absurd ((hgood w hw).2.1 '.' hcmem) (by decide)
      have hso : (dotJoined ids).splitOn '.' = ids :=
        List.splitOn_intercalate ids '.' hdot hne
      have hcv : core = (maj ++ '.' :: (mino ++ '.' :: pat)) ++ '-' :: dotJoined ids := by
        rw [hceq]
        simp [optSuffix]
      rw [coreOk, hcv]
      rw [takeWhile_append_cons _ _ _ _ hverm (by decide),
        dropWhile_append_cons _ _ _ _ hverm (by decide), hsplit3]
      show ((isNumPart maj && isNumPart mino && isNumPart pat) &&
        ((dotJoined ids).splitOn '.').all isPreId) = true
      rw [hso]
      simp only [Bool.and_eq_true, List.all_eq_true]
      refine ⟨⟨⟨(isNumPart_iff maj).mpr hmaj, (isNumPart_iff mino).mpr hmino⟩,
        (isNumPart_iff pat).mpr hpat⟩, ?_⟩
      intro i hi
      exact (isPreId_iff i).mpr (hgood i hi)

theorem isSemver_iff_grammar (s : String) : isSemver s = true ↔ SemverGrammar s := by
  constructor
  · intro h
    rw [isSemver] at h
    split at h
    · rename_i core heq
      have hs : s.data = core := by
        have h0 := List.intercalate_splitOn s.data '+'
        rw [heq, intercalate_single] at h0
        exact h0.symm
      obtain ⟨maj, mino, pat, pre, hceq, hmaj, hmino, hpat, hpre⟩ := (coreOk_iff core).mp h
      refine ⟨maj, mino, pat, pre, none, ?_, hmaj, hmino, hpat, hpre, by simp⟩
      rw [hs, hceq]
      simp [optSuffix]
    · rename_i core build heq
      rw [Bool.and_eq_true] at h
      obtain ⟨hcore, hbuild⟩ := h
      have hs : s.data = core ++ '+' :: build := by
        have h0 := List.intercalate_splitOn s.data '+'
        rw [heq, intercalate_pair] at h0
        exact h0.symm
      obtain ⟨maj, mino, pat, pre, hceq, hmaj, hmino, hpat, hpre⟩ := (coreOk_iff core).mp hcore
      rw [List.all_eq_true] at hbuild
      refine ⟨maj, mino, pat, pre, some (build.splitOn '.'), ?_, hmaj, hmino, hpat, hpre, ?_⟩
      · have hb : List.intercalate ['.'] (build.splitOn '.') = build :=
          List.intercalate_splitOn build '.'
        rw [hs, hceq]
        simp [optSuffix, dotJoined, hb]
      · rintro ids hids
        injection hids with hids
        subst hids
        exact ⟨splitOn_ne_nil _ _, fun i hi => (isBuildId_iff i).mp (hbuild i hi)⟩
    · simp at h
  · rintro ⟨maj, mino, pat, pre, build, hseq, hmaj, hmino, hpat, hpre, hbuild⟩
    have hA : ∀ x ∈ (maj ++ '.' :: (mino ++ '.' :: pat)) ++ optSuffix '-' pre, x ≠ '+' := by
      intro x hx
      rcases List.mem_append.mp hx with h | h
      · have hcls : x.isDigit = true ∨ x = '.' := by
          rcases List.mem_append.mp h with h | h
          · exact Or.inl (hmaj.2.1 x h)
          · rcases List.mem_cons.mp h with rfl | h
            · exact Or.inr rfl
            · rcases List.mem_append.mp h with h | h
              · exact Or.inl (hmino.2.1 x h)
              · rcases List.mem_cons.mp h with rfl | h
                · exact Or.inr rfl
                · exact Or.inl (hpat.2.1 x h)
        rcases hcls with h | rfl
        · exact ne_of_class h (by decide : ('+' : Char).isDigit = false)
        · decide
      · cases pre with
        | none => simp [optSuffix] at h
        | some ids =>
          obtain ⟨-, hgood⟩ := hpre ids rfl
          simp only [optSuffix] at h
          rcases List.mem_cons.mp h with rfl | h
          · decide
          · rcases mem_intercalate '.' ids x h with rfl | ⟨w, hw, hxw⟩
            · decide
            · exact ne_of_class ((hgood w hw).2.1 x hxw)
                (by decide : isAlnumHyphen '+' = false)
    have hsA : s.data =
        ((maj ++ '.' :: (mino ++ '.' :: pat)) ++ optSuffix '-' pre) ++ optSuffix '+' build := by
      rw [hseq]
      simp [List.append_assoc]
    cases build with
    | none =>
      have hsp : s.data.splitOn '+' =
          [(maj ++ '.' :: (mino ++ '.' :: pat)) ++ optSuffix '-' pre] := by
        rw [hsA]
        simp only [optSuffix, List.append_nil]
        exact splitOn_eq_single '+' _ hA
      rw [isSemver, hsp]
      exact (coreOk_iff _).mpr ⟨maj, mino, pat, pre, by simp, hmaj, hmino, hpat, hpre⟩
    | some bids =>
      obtain ⟨hbne, hbgood⟩ := hbuild bids rfl
      have hBnoplus : ∀ x ∈ dotJoined bids, x ≠ '+' := by
        intro x hx
        rcases mem_intercalate '.' bids x hx with rfl | ⟨w, hw, hxw⟩
        · decide
        · exact ne_of_class ((hbgood w hw).2 x hxw) (by decide : isAlnumHyphen '+' = false)
      have hsA2 : s.data =
          ((maj ++ '.' :: (mino ++ '.' :: pat)) ++ optSuffix '-' pre) ++ '+' :: dotJoined bids := by
        rw [hseq]
        simp [optSuffix, List.append_assoc]
      have hsp : s.data.splitOn '+' =
          [(maj ++ '.' :: (mino ++ '.' :: pat)) ++ optSuffix '-' pre, dotJoined bids] := by
        rw [hsA2, splitOn_append_cons '+' _ _ hA, splitOn_eq_single '+' _ hBnoplus]
      rw [isSemver, hsp]
      show (coreOk ((maj ++ '.' :: (mino ++ '.' :: pat)) ++ optSuffix '-' pre) &&
        ((dotJoined bids).splitOn '.').all isBuildId) = true
      simp only [Bool.and_eq_true]
      refine ⟨(coreOk_iff _).mpr ⟨maj, mino, pat, pre, by simp, hmaj, hmino, hpat, hpre⟩, ?_⟩
      have hbdot : ∀ w ∈ bids, '.' ∉ w := by
        intro w hw hcmem
        exact absurd ((hbgood w hw).2 '.' hcmem) (by decide)
      have hd : List.splitOn '.' (dotJoined bids) = bids := by
        rw [dotJoined]
        exact List.splitOn_intercalate bids '.' hbdot hbne
      rw [hd, List.all_eq_true]
      intro i hi
      exact (isBuildId_iff i).mpr (hbgood i hi)

theorem lookup_cons_ite {k1 k : String} {v1 : List String} {t : List (String × List String)} :
    (((k1, v1) :: t).lookup k) = if k = k1 then some v1 else t.lookup k := by
  rw [List.lookup_cons]
  by_cases h : k = k1
  · subst h
    simp
  · have hb : (k == k1) = false := by simp [h]
    simp [hb, h]

theorem assoc_any_iff_lookup {m : List (String × List String)} {k : String} :
    (m.any (fun p => p.1 == k) = true) ↔ ((m.lookup k).isSome = true) := by
  rw [List.any_eq_true, List.lookup_isSome_iff]
  constructor
  · rintro ⟨p, hp, he⟩
    refine ⟨p, hp, ?_⟩
    simp only [beq_iff_eq] at he ⊢
    exact he.symm
  · rintro ⟨p, hp, he⟩
    refine ⟨p, hp, ?_⟩
    simp only [beq_iff_eq] at he ⊢
    exact he.symm

theorem lookup_map_update (major tag : String) (m : List (String × List String)) (k : String) :
    ((m.map (fun p => if p.1 == major then (p.1, p.2 ++ [tag]) else p)).lookup k) =
      (m.lookup k).map (fun v => if k == major then v ++ [tag] else v) := by
  induction m with
  | nil => rfl
  | cons p t ih =>
    obtain ⟨k1, v1⟩ := p
    rw [List.map_cons]
    by_cases h1 : k1 = major
    · subst h1
      have hhead : (if ((k1, v1).1 == k1) = true then ((k1, v1).1, (k1, v1).2 ++ [tag])
          else (k1, v1)) = (k1, v1 ++ [tag]) := by
        simp
      rw [hhead, lookup_cons_ite, lookup_cons_ite]
      by_cases h2 : k = k1
      · subst h2
        simp
      · rw [if_neg h2, if_neg h2, ih]
    · have hhead : (if ((k1, v1).1 == major) = true then ((k1, v1).1, (k1, v1).2 ++ [tag])
          else (k1, v1)) = (k1, v1) := by
        simp [h1]
      rw [hhead, lookup_cons_ite, lookup_cons_ite]
      by_cases h2 : k = k1
      · subst h2
        rw [if_pos rfl, if_pos rfl]
        simp [h1]
      · rw [if_neg h2, if_neg h2, ih]

theorem lookup_append_single (m : List (String × List String)) (major k : String)
    (v0 : List String) :
    ((m ++ [(major, v0)]).lookup k) =
      match m.lookup k with
      | some v => some v
      | none => if k = major then some v0 else none := by
  induction m with
  | nil =>
    rw [List.nil_append, lookup_cons_ite]
    simp
  | cons p t ih =>
    obtain ⟨k1, v1⟩ := p
    rw [List.cons_append, lookup_cons_ite, lookup_cons_ite]
    by_cases h2 : k = k1
    · subst h2
      rw [if_pos rfl, if_pos rfl]
    · rw [if_neg h2, if_neg h2, ih]

theorem tagMapInsert_lookup (m : List (String × List String)) (major tag k : String) :
    ((tagMapInsert m major tag).lookup k) =
      if k = major then some (((m.lookup major).getD []) ++ [tag]) else m.lookup k := by
  rw [tagMapInsert]
  by_cases hany : m.any (fun p => p.1 == major) = true
  · rw [if_pos hany, lookup_map_update]
    obtain ⟨v, hv⟩ := Option.isSome_iff_exists.mp (assoc_any_iff_lookup.mp hany)
    by_cases hk : k = major
    · subst hk
      simp [hv]
    · have hke : (k == major) = false := by simp [hk]
      cases h : m.lookup k <;> simp [hke, hk]
  · rw [if_neg hany, lookup_append_single]
    have hnone : m.lookup major = none := by
      cases h : m.lookup major
      · rfl
      · exact absurd (assoc_any_iff_lookup.mpr (by simp [h])) hany
    by_cases hk : k = major
    · subst hk
      simp [hnone]
    · cases h : m.lookup k <;> simp [hk]

theorem foldl_tagMapStep_lookup (excl : Option String) :
    ∀ (tags : List String) (m : List (String × List String)) (k : String),
      ((tags.foldl (tagMapStep excl) m).lookup k) =
        match m.lookup k, tags.filter (tagFilterPred excl k) with
        | none, [] => none
        | none, l => some l
        | some v, l => some (v ++ l) := by
  intro tags
  induction tags with
  | nil =>
    intro m k
    simp only [List.foldl_nil, List.filter_nil]
    cases h : m.lookup k <;> simp
  | cons t ts ih =>
    intro m k
    rw [List.foldl_cons, List.filter_cons]
    by_cases hsem : isSemver t = true
    · by_cases hexcl : (some t == excl) = true
      · have hstep : tagMapStep excl m t = m := by
          rw [tagMapStep]
          simp [hsem, hexcl]
        have hpred : tagFilterPred excl k t = false := by
          simp [tagFilterPred, hexcl]
        rw [hstep, ih, hpred]
        simp
      · by_cases hmaj : getMajor t = k
        · subst hmaj
          have hstep : tagMapStep excl m t = tagMapInsert m (getMajor t) t := by
            rw [tagMapStep]
            simp [hsem, hexcl]
          have hpred : tagFilterPred excl (getMajor t) t = true := by
            cases he : (some t == excl)
            · simp [tagFilterPred, hsem, he]
            · exact absurd he hexcl
          rw [hstep, ih, tagMapInsert_lookup, if_pos rfl, hpred]
          simp only [if_true]
          cases hm : m.lookup (getMajor t) <;> simp
        · have hstep : tagMapStep excl m t = tagMapInsert m (getMajor t) t := by
            rw [tagMapStep]
            simp [hsem, hexcl]
          have hpred : tagFilterPred excl k t = false := by
            simp [tagFilterPred, hmaj]
          rw [hstep, ih, hpred, tagMapInsert_lookup]
          rw [if_neg (fun h => hmaj h.symm)]
          simp
    · have hsem' : isSemver t = false := by
        cases h : isSemver t
        · rfl
        · exact absurd h hsem
      have hstep : tagMapStep excl m t = m := by
        rw [tagMapStep]
        simp [hsem']
      have hpred : tagFilterPred excl k t = false := by
        simp [tagFilterPred, hsem']
      rw [hstep, ih, hpred]
      simp

theorem buildTagMap_lookup (tags : List String) (excl : Option String) (k : String) :
    ((buildTagMap tags excl).lookup k) =
      if (tags.filter (tagFilterPred excl k)).isEmpty then none
      else some (tags.filter (tagFilterPred excl k)) := by
  rw [buildTagMap, foldl_tagMapStep_lookup]
  cases h : tags.filter (tagFilterPred excl k) <;> simp [h]

theorem keys_tagMapInsert (m : List (String × List String)) (major tag : String) :
    Keys (tagMapInsert m major tag) =
      if m.any (fun p => p.1 == major) then Keys m else Keys m ++ [major] := by
  rw [tagMapInsert]
  by_cases h : m.any (fun p => p.1 == major) = true
  · rw [if_pos h, if_pos h, Keys, Keys, List.map_map]
    refine List.map_congr_left ?_
    intro p hp
    by_cases hp1 : p.1 = major <;> simp [Function.comp, hp1]
  · rw [if_neg h, if_neg h, Keys, Keys, List.map_append]
    rfl

theorem keys_foldl_nodup (excl : Option String) :
    ∀ (tags : List String) (m : List (String × List String)),
      (Keys m).Nodup → (Keys (tags.foldl (tagMapStep excl) m)).Nodup := by
  intro tags
  induction tags with
  | nil => intro m h; exact h
  | cons t ts ih =>
    intro m hm
    rw [List.foldl_cons]
    by_cases hsem : isSemver t = true
    · by_cases hexcl : (some t == excl) = true
      · have hstep : tagMapStep excl m t = m := by
          rw [tagMapStep]
          simp [hsem, hexcl]
        rw [hstep]
        exact ih m hm
      · have hstep : tagMapStep excl m t = tagMapInsert m (getMajor t) t := by
          rw [tagMapStep]
          simp [hsem, hexcl]
        rw [hstep]
        refine ih _ ?_
        rw [keys_tagMapInsert]
        by_cases hany : m.any (fun p => p.1 == getMajor t) = true
        · rw [if_pos hany]
          exact hm
        · rw [if_neg hany, List.nodup_append]
          refine ⟨hm, List.nodup_singleton _, ?_⟩
          intro x hx hx2
          have hxe : x = getMajor t := List.mem_singleton.mp hx2
          subst hxe
          apply hany
          rw [List.any_eq_true]
          obtain ⟨p, hp, hpx⟩ := List.mem_map.mp hx
          exact ⟨p, hp, by simp [hpx]⟩
    · have hstep : tagMapStep excl m t = m := by
        rw [tagMapStep]
        simp [Bool.eq_false_iff.mpr hsem]
      rw [hstep]
      exact ih m hm

theorem buildTagMap_keys_nodup (tags : List String) (excl : Option String) :
    (Keys (buildTagMap tags excl)).Nodup :=
  keys_foldl_nodup excl tags [] (by simp [Keys])

theorem lookup_of_mem_of_nodup :
    ∀ (m : List (String × List String)), (Keys m).Nodup →
      ∀ p ∈ m, m.lookup p.1 = some p.2 := by
  intro m
  induction m with
  | nil =>
    intro _ p hp
    simp at hp
  | cons q t ih =>
    intro hnd p hp
    obtain ⟨k1, v1⟩ := q
    have hnd' : (k1 :: Keys t).Nodup := by simpa [Keys] using hnd
    rw [lookup_cons_ite]
    rcases List.mem_cons.mp hp with rfl | hp2
    · rw [if_pos rfl]
    · have hk : p.1 ≠ k1 := by
        intro he
        have h1 : k1 ∈ Keys t := by
          rw [← he]
          exact List.mem_map.mpr ⟨p, hp2, rfl⟩
        exact (List.nodup_cons.mp hnd').1 h1
      rw [if_neg hk]
      exact ih (List.nodup_cons.mp hnd').2 p hp2

theorem buildTagMap_mem_val {tags : List String} {excl : Option String}
    {p : String × List String} (hp : p ∈ buildTagMap tags excl) :
    p.2 = tags.filter (tagFilterPred excl p.1) ∧ p.2 ≠ [] := by
  have hnd := buildTagMap_keys_nodup tags excl
  have hl := lookup_of_mem_of_nodup _ hnd p hp
  rw [buildTagMap_lookup] at hl
  by_cases hf : (tags.filter (tagFilterPred excl p.1)).isEmpty = true
  · rw [if_pos hf] at hl
    simp at hl
  · rw [if_neg hf] at hl
    injection hl with hl
    refine ⟨hl.symm, ?_⟩
    rw [hl.symm]
    simpa [List.isEmpty_iff] using hf

theorem foldl_filter_semver (excl : Option String) :
    ∀ (tags : List String) (m : List (String × List String)),
      tags.foldl (tagMapStep excl) m =
        (tags.filter (fun t => isSemver t)).foldl (tagMapStep excl) m := by
  intro tags
  induction tags with
  | nil => intro m; rfl
  | cons t ts ih =>
    intro m
    rw [List.foldl_cons, List.filter_cons]
    by_cases hsem : isSemver t = true
    · rw [if_pos hsem, List.foldl_cons, ih]
    · have hsem' : isSemver t = false := Bool.eq_false_iff.mpr hsem
      have hstep : tagMapStep excl m t = m := by
        rw [tagMapStep]
        simp [hsem']
      rw [hstep, if_neg (by simp [hsem']), ih]

theorem anyKey_iff_tag_evidence (repo : GitRepo) (major tagToExclude : String) :
    ((buildTagMap (getAllTags repo) (some tagToExclude)).any (fun p => p.1 == major) = true) ↔
      ∃ t ∈ repo.tags, isSemver t = true ∧ t ≠ tagToExclude ∧ getMajor t = major := by
  rw [assoc_any_iff_lookup, getAllTags, buildTagMap_lookup]
  constructor
  · intro h
    by_cases hf : (repo.tags.filter (tagFilterPred (some tagToExclude) major)).isEmpty = true
    · rw [if_pos hf] at h
      simp at h
    · have hne : repo.tags.filter (tagFilterPred (some tagToExclude) major) ≠ [] := by
        simpa [List.isEmpty_iff] using hf
      obtain ⟨a, ha⟩ := List.exists_mem_of_ne_nil _ hne
      obtain ⟨hmem, hpred⟩ := List.mem_filter.mp ha
      refine ⟨a, hmem, ?_⟩
      have hp2 : (isSemver a = true ∧ ¬a = tagToExclude) ∧ getMajor a = major := by
        simpa [tagFilterPred] using hpred
      exact ⟨hp2.1.1, hp2.1.2, hp2.2⟩
  · rintro ⟨t, ht, hsem, hne, hmaj⟩
    have hmem : t ∈ repo.tags.filter (tagFilterPred (some tagToExclude) major) :=
      List.mem_filter.mpr ⟨ht, by simp [tagFilterPred, hsem, hne, hmaj]⟩
    rw [if_neg (by simpa [List.isEmpty_iff] using List.ne_nil_of_mem hmem)]
    simp

theorem doesMajorTagAlreadyExist_iff (repo : GitRepo) (major tagToExclude : String) :
    doesMajorTagAlreadyExist repo major tagToExclude = true ↔
      ((∃ t ∈ repo.tags, isSemver t = true ∧ t ≠ tagToExclude ∧ getMajor t = major) ∨
        major ∈ objectProtoKeys) := by
  rw [doesMajorTagAlreadyExist, jsIn, Bool.or_eq_true]
  exact or_congr (anyKey_iff_tag_evidence repo major tagToExclude) (by simp)

theorem getMajor_of_not_semver {s : String} (h : isSemver s = false) : getMajor s = "" := by
  rw [getMajor, if_neg (by simp [h])]

theorem getMajor_spec {s : String} (h : isSemver s = true) :
    NumNoLeadZero (getMajor s).data ∧ ∃ rest, s.data = (getMajor s).data ++ '.' :: rest := by
  obtain ⟨maj, mino, pat, pre, build, hseq, hmaj, hmino, hpat, hpre, hbuild⟩ :=
    (isSemver_iff_grammar s).mp h
  have hdig : ∀ x ∈ maj, (x != '.') = true := fun x hx => by
    simpa using ne_of_class (hmaj.2.1 x hx) (by decide : ('.' : Char).isDigit = false)
  have hR : s.data =
      maj ++ '.' :: (mino ++ ('.' :: (pat ++ (optSuffix '-' pre ++ optSuffix '+' build)))) := by
    rw [hseq]
    simp [List.append_assoc]
  have htw : (getMajor s).data = maj := by
    rw [getMajor, if_pos h]
    show s.data.takeWhile (fun c => c != '.') = maj
    rw [hR]
    exact takeWhile_append_cons _ _ _ _ hdig (by decide)
  rw [htw]
  exact ⟨hmaj, _, hR⟩

theorem validateGithubContext_ok_iff (context : GithubContext) :
    validateGithubContext context = Except.ok () ↔
      (context.eventName = "release" ∧ isSemver (getReleaseTag context) = true) := by
  rw [validateGithubContext]
  by_cases h1 : context.eventName = "release"
  · rw [if_neg (not_not_intro h1)]
    by_cases h2 : isSemver (getReleaseTag context) = true
    · rw [if_neg (by simp [h2])]
      simp [h1, h2]
    · rw [if_pos (by simp [Bool.eq_false_iff.mpr h2])]
      simp [h2]
  · rw [if_pos h1]
    simp [h1]

theorem validateGithubContext_total (context : GithubContext) :
    validateGithubContext context = Except.ok () ∨
      ∃ e, validateGithubContext context = Except.error e := by
  cases h : validateGithubContext context with
  | ok u =>
    cases u
    exact Or.inl rfl
  | error e => exact Or.inr ⟨e, rfl⟩

theorem mainRun_other_branch (repo : GitRepo) (context : GithubContext)
    (h1 : getTargetBranch context ≠ getDefaultBranch context)
    (h2 : isBranchAReleaseBranch (getTargetBranch context) = false) :
    (mainRun repo context).created = [] ∧ (mainRun repo context).error ≠ none := by
  rw [mainRun]
  cases hv : validateGithubContext context with
  | error e => simp
  | ok u =>
    have hbe : (getTargetBranch context == getDefaultBranch context) = false := by simp [h1]
    simp [hbe, h2]

theorem mainRun_release_branch (repo : GitRepo) (context : GithubContext)
    (hev : context.eventName = "release")
    (hsem : isSemver (getReleaseTag context) = true)
    (hne : getTargetBranch context ≠ getDefaultBranch context)
    (hrb : isBranchAReleaseBranch (getTargetBranch context) = true) :
    (((mainRun repo context).error ≠ none) ↔
      getMajor (getReleaseTag context) ≠ getMajorFromReleaseBranch (getTargetBranch context)) ∧
    (getMajor (getReleaseTag context) = getMajorFromReleaseBranch (getTargetBranch context) →
      mainRun repo context = ⟨[], none⟩) := by
  have hv : validateGithubContext context = Except.ok () :=
    (validateGithubContext_ok_iff context).mpr ⟨hev, hsem⟩
  rw [mainRun, hv]
  have hbe : (getTargetBranch context == getDefaultBranch context) = false := by simp [hne]
  by_cases hmaj : getMajor (getReleaseTag context) =
      getMajorFromReleaseBranch (getTargetBranch context)
  · have hmb : (getMajor (getReleaseTag context) ==
        getMajorFromReleaseBranch (getTargetBranch context)) = true := by simp [hmaj]
    simp [hbe, hrb, hmb, hmaj]
  · have hmb : (getMajor (getReleaseTag context) ==
        getMajorFromReleaseBranch (getTargetBranch context)) = false := by simp [hmaj]
    simp [hbe, hrb, hmb, hmaj]

theorem runMain_shape (repo : GitRepo) (context : GithubContext) :
    (((mainRun repo context).error = none) → (runMain repo context).succeeded = true) ∧
    (∀ e, (mainRun repo context).error = some e →
      runMain repo context = ⟨false, none, e, []⟩) ∧
    ((runMain repo context).succeeded = false →
      (runMain repo context).reason = none ∧ (runMain repo context).data = []) := by
  rw [runMain]
  cases he : (mainRun repo context).error with
  | some e =>
    refine ⟨by simp [he], ?_, by simp⟩
    intro e' he'
    injection he' with he'
    subst he'
    rfl
  | none =>
    by_cases hc : (mainRun repo context).created.isEmpty = true <;>
      simp [hc]

/-- C1 counterexample: `buildTagMap` does not keep a single first-seen
representative per major — on `["1.0.0", "1.2.0"]` the entry for major `"1"`
holds both tags, so the later tag for an already-seen major is not dropped. -/
theorem c1_counterexample :
    (buildTagMap ["1.0.0", "1.2.0"] none).lookup "1" = some ["1.0.0", "1.2.0"] ∧
    (["1.0.0", "1.2.0"] : List String).length ≠ 1 := by
  decide

/-- C1 (amended): the grouping keys each major at most once, and maps a major
to the list of all valid, non-excluded tags with that major in input order
(whose head is therefore the first valid tag encountered for that major);
a key is present exactly when such a tag exists. -/
theorem c1_tag_grouping :
    ∀ (tags : List String) (excl : Option String),
      (Keys (buildTagMap tags excl)).Nodup ∧
      ∀ k, ((buildTagMap tags excl).lookup k) =
        if (tags.filter (tagFilterPred excl k)).isEmpty then none
        else some (tags.filter (tagFilterPred excl k)) :=
  fun tags excl =>
    ⟨buildTagMap_keys_nodup tags excl, fun k => buildTagMap_lookup tags excl k⟩

/-- C1 witness: the characterization evaluated on a concrete tag list. -/
theorem c1_tag_grouping_witness :
    (buildTagMap ["1.0.0", "1.2.0"] none).lookup "1" =
      if ((["1.0.0", "1.2.0"] : List String).filter (tagFilterPred none "1")).isEmpty then none
      else some ((["1.0.0", "1.2.0"] : List String).filter (tagFilterPred none "1")) :=
  (c1_tag_grouping ["1.0.0", "1.2.0"] none).2 "1"

/-- C2 counterexample: on the spec's example input, `"3.0.0-rc.1"` is a valid
semver tag and is not ignored — it is appended under major `"3"`, so the entry
for `"3"` is not the single tag `"3.0.0"`. -/
theorem c2_counterexample :
    isSemver "3.0.0-rc.1" = true ∧
    (buildTagMap ["1.0.0", "1.2.0", "2.0.0", "3.0.0", "abc", "3.0.0-rc.1"] none).lookup "3" =
      some ["3.0.0", "3.0.0-rc.1"] ∧
    (some ["3.0.0", "3.0.0-rc.1"] : Option (List String)) ≠ some ["3.0.0"] := by
  decide

/-- C2 (amended): on the example input the grouping produces exactly
`{1 ↦ ["1.0.0", "1.2.0"], 2 ↦ ["2.0.0"], 3 ↦ ["3.0.0", "3.0.0-rc.1"]}` —
`"abc"` is discarded as non-semver, and later valid tags of an already-seen
major are appended to that major's list rather than ignored. -/
theorem c2_example_map :
    buildTagMap ["1.0.0", "1.2.0", "2.0.0", "3.0.0", "abc", "3.0.0-rc.1"] none =
      [("1", ["1.0.0", "1.2.0"]), ("2", ["2.0.0"]), ("3", ["3.0.0", "3.0.0-rc.1"])] := by
  decide

/-- C3: at the modelled top-level boundary, a successful `main` run yields a
succeeded Outcome, every thrown error yields exactly
`Outcome{succeeded := false, reason := none, message := e, data := []}`, and
no failed Outcome carries a reason or data (no partial success). -/
theorem c3_top_level_boundary :
    ∀ (repo : GitRepo) (context : GithubContext),
      (((mainRun repo context).error = none) → (runMain repo context).succeeded = true) ∧
      (∀ e, (mainRun repo context).error = some e →
        runMain repo context = ⟨false, none, e, []⟩) ∧
      ((runMain repo context).succeeded = false →
        (runMain repo context).reason = none ∧ (runMain repo context).data = []) :=
  fun repo context => runMain_shape repo context

/-- C3 witness: a run whose event is not `release` produces the uniform
failure Outcome. -/
theorem c3_top_level_boundary_witness :
    runMain emptyRepo ctxBadEvent =
      ⟨false, none, "Unsupported event 'push'. Only supported event is 'release'", []⟩ :=
  (c3_top_level_boundary emptyRepo ctxBadEvent).2.1 _ (by decide)

/-- C4: `isSemver` accepts a string exactly when it matches the
semantic-version grammar (numeric `major.minor.patch` without leading zeros,
optional dot-separated pre-release identifiers, optional dot-separated
build-metadata identifiers), and is total on all strings. -/
theorem c4_semver_grammar : ∀ (s : String), isSemver s = true ↔ SemverGrammar s :=
  isSemver_iff_grammar

/-- C4 witness: the equivalence instantiated at a concrete version string. -/
theorem c4_semver_grammar_witness : SemverGrammar "1.2.3-alpha.1+build-7" :=
  (c4_semver_grammar "1.2.3-alpha.1+build-7").mp (by decide)

/-- C5: context validation succeeds exactly on contexts whose event name is
`release` and whose release tag is a valid semantic version, and fails with
an error exactly otherwise. -/
theorem c5_validation :
    ∀ (context : GithubContext),
      (validateGithubContext context = Except.ok () ↔
        (context.eventName = "release" ∧ isSemver (getReleaseTag context) = true)) ∧
      ((∃ e, validateGithubContext context = Except.error e) ↔
        (context.eventName ≠ "release" ∨ isSemver (getReleaseTag context) = false)) := by
  intro context
  have hok := validateGithubContext_ok_iff context
  refine ⟨hok, ?_, ?_⟩
  · rintro ⟨e, he⟩
    by_cases h1 : context.eventName = "release"
    · by_cases h2 : isSemver (getReleaseTag context) = true
      · rw [hok.mpr ⟨h1, h2⟩] at he
        exact absurd he (by simp)
      · exact Or.inr (Bool.eq_false_iff.mpr h2)
    · exact Or.inl h1
  · intro h
    rcases validateGithubContext_total context with hv | hv
    · obtain ⟨h1, h2⟩ := hok.mp hv
      rcases h with h | h
      · exact absurd h1 h
      · exact absurd (h2.symm.trans h) (by decide)
    · exact hv

/-- C5 witness: a `release` event with a valid semver tag validates. -/
theorem c5_validation_witness : validateGithubContext ctxDefaultBranch = Except.ok () :=
  (c5_validation ctxDefaultBranch).1.mpr ⟨rfl, by decide⟩

/-- C6 counterexample: when the default branch itself is named like a release
branch and is the target, the target branch is a release branch and its major
differs from the tag's major, yet the run succeeds (the default-branch path is
taken first), contradicting the claimed failure. -/
theorem c6_counterexample :
    isBranchAReleaseBranch (getTargetBranch ctxReleaseIsDefault) = true ∧
    getMajor (getReleaseTag ctxReleaseIsDefault) ≠
      getMajorFromReleaseBranch (getTargetBranch ctxReleaseIsDefault) ∧
    (mainRun repoMajor2 ctxReleaseIsDefault).error = none := by
  decide

/-- C6 (amended): when validation passes and the target branch is a release
branch other than the default branch, the run fails exactly when the tag's
major differs from the branch's major, and on agreement it succeeds creating
no branch. -/
theorem c6_release_branch_check :
    ∀ (repo : GitRepo) (context : GithubContext),
      context.eventName = "release" →
      isSemver (getReleaseTag context) = true →
      getTargetBranch context ≠ getDefaultBranch context →
      isBranchAReleaseBranch (getTargetBranch context) = true →
      ((((mainRun repo context).error ≠ none) ↔
        getMajor (getReleaseTag context) ≠
          getMajorFromReleaseBranch (getTargetBranch context)) ∧
      (getMajor (getReleaseTag context) =
          getMajorFromReleaseBranch (getTargetBranch context) →
        mainRun repo context = ⟨[], none⟩)) :=
  fun repo context hev hsem hne hrb => mainRun_release_branch repo context hev hsem hne hrb

/-- C6 witness: a release for `release/v1` with tag major 1 succeeds and
creates nothing. -/
theorem c6_release_branch_check_witness :
    mainRun emptyRepo ctxMatchingReleaseBranch = ⟨[], none⟩ :=
  (c6_release_branch_check emptyRepo ctxMatchingReleaseBranch rfl (by decide) (by decide)
    (by decide)).2 (by decide)

/-- C7: whenever the target branch is neither the default branch nor a
release branch, the run fails and creates no branch. -/
theorem c7_unknown_branch :
    ∀ (repo : GitRepo) (context : GithubContext),
      getTargetBranch context ≠ getDefaultBranch context →
      isBranchAReleaseBranch (getTargetBranch context) = false →
      ((mainRun repo context).created = [] ∧ (mainRun repo context).error ≠ none) :=
  fun repo context h1 h2 => mainRun_other_branch repo context h1 h2

/-- C7 witness: a release targeting a feature branch fails without creating
a branch. -/
theorem c7_unknown_branch_witness :
    (mainRun emptyRepo ctxFeatureBranch).created = [] ∧
    (mainRun emptyRepo ctxFeatureBranch).error ≠ none :=
  c7_unknown_branch emptyRepo ctxFeatureBranch (by decide) (by decide)

/-- C8: non-semver tags are filtered silently — the grouping of any tag list
equals the grouping of its valid-semver sublist, and every tag stored in the
result is a valid semver. -/
theorem c8_invalid_tags_filtered :
    ∀ (tags : List String) (excl : Option String),
      buildTagMap tags excl = buildTagMap (tags.filter (fun t => isSemver t)) excl ∧
      ∀ p ∈ buildTagMap tags excl, ∀ t ∈ p.2, isSemver t = true := by
  intro tags excl
  constructor
  · rw [buildTagMap, buildTagMap]
    exact foldl_filter_semver excl tags []
  · intro p hp t ht
    obtain ⟨hval, -⟩ := buildTagMap_mem_val hp
    rw [hval] at ht
    have hpred := (List.mem_filter.mp ht).2
    simp only [tagFilterPred, Bool.and_eq_true] at hpred
    exact hpred.1.1

/-- C8 witness: grouping is unchanged by dropping the invalid tag `"abc"`. -/
theorem c8_invalid_tags_filtered_witness :
    buildTagMap ["abc", "1.0.0"] none =
      buildTagMap ((["abc", "1.0.0"] : List String).filter (fun t => isSemver t)) none :=
  (c8_invalid_tags_filtered ["abc", "1.0.0"] none).1

/-- C9: `getMajor` is total — it returns `""` on every non-semver string, and
on a valid semver it returns the decimal major component (the digits before
the first dot, with no leading zeros). -/
theorem c9_getMajor_total :
    ∀ (s : String),
      (isSemver s = false → getMajor s = "") ∧
      (isSemver s = true → NumNoLeadZero (getMajor s).data ∧
        ∃ rest, s.data = (getMajor s).data ++ '.' :: rest) :=
  fun s => ⟨fun h => @getMajor_of_not_semver s h, fun h => @getMajor_spec s h⟩

/-- C9 witness: `getMajor` at a non-semver and at a valid semver input. -/
theorem c9_getMajor_total_witness :
    getMajor "abc" = "" ∧ NumNoLeadZero (getMajor "10.2.3").data :=
  ⟨(c9_getMajor_total "abc").1 (by decide), ((c9_getMajor_total "10.2.3").2 (by decide)).1⟩

/-- C10: the excluded tag never appears in the grouping, and the major-tag
existence check holds exactly when some valid tag other than the excluded one
has the given major or the major is a property name every plain object
inherits from `Object.prototype` (the JavaScript `in` operator searches the
prototype chain) — so the release tag being processed is never what makes its
major count as existing. -/
theorem c10_exclusion :
    ∀ (repo : GitRepo) (major tagToExclude : String),
      (doesMajorTagAlreadyExist repo major tagToExclude = true ↔
        ((∃ t ∈ repo.tags, isSemver t = true ∧ t ≠ tagToExclude ∧ getMajor t = major) ∨
          major ∈ objectProtoKeys)) ∧
      (∀ p ∈ buildTagMap repo.tags (some tagToExclude), tagToExclude ∉ p.2) := by
  intro repo major tagToExclude
  refine ⟨doesMajorTagAlreadyExist_iff repo major tagToExclude, ?_⟩
  intro p hp hmem
  obtain ⟨hval, -⟩ := buildTagMap_mem_val hp
  rw [hval] at hmem
  have hpred := (List.mem_filter.mp hmem).2
  simp [tagFilterPred] at hpred

/-- C10 witness: with `"1.0.0"` excluded, major `"1"` still exists because of
the distinct tag `"1.5.0"`. -/
theorem c10_exclusion_witness :
    doesMajorTagAlreadyExist repoTwoMajor1 "1" "1.0.0" = true :=
  (c10_exclusion repoTwoMajor1 "1" "1.0.0").1.mpr
    (Or.inl ⟨"1.5.0", by decide, by decide, by decide, by decide⟩)

end Releaser
